import Mathlib

/-!
Shallow embedding of the product-catalog logic of the e-commerce repository
(Django app `product`): the auto-ordering field `OrderField.pre_save`
(fields.py), the uniqueness validators `ProductLine.clean`,
`ProductImage.clean` and `ProductLineAttributeValue.clean` with their
overridden `save` methods (models.py), and the read-side serializers and
viewsets (serializers.py, views.py).

Rows of a table are modelled as lists of records; Django model instances
about to be saved carry `Option` primary keys and `Option` order values;
`full_clean`-then-save is an `Except`-returning transition on the stored
state; Python dicts built by the serializers are association lists with
dict-assignment semantics (replace the value of an existing key in place,
otherwise append).
-/

/-- A persisted row carrying an `OrderField`: a `ProductLine` (`parent` is the
product id, per `OrderField(unique_for_field='product')`) or a `ProductImage`
(`parent` is the product_line id, per `unique_for_field='product_line'`).
`id` is the primary key, `order` the stored positive-integer order value. -/
structure OrderedRow where
  id : Nat
  parent : Nat
  order : Nat
deriving DecidableEq, Repr

/-- An in-memory model instance being saved: `id = none` for a new row whose
primary key is not yet assigned, `order = none` when the order value is
unset (`getattr(model_instance, self.attname) is None`). -/
structure OrderedInstance where
  id : Option Nat
  parent : Nat
  order : Option Nat
deriving DecidableEq, Repr

/-- `self.model.objects.all().filter(**{self.unique_for_field: parent})` and
equally `ProductLine.objects.filter(product=self.product)`: the stored rows
whose parent-key value equals the given one. -/
def siblings (rows : List OrderedRow) (parent : Nat) : List OrderedRow :=
  rows.filter (fun r => r.parent == parent)

/-- `query_set.latest(self.attname)`: the row with the greatest `order`
value, or `none` on an empty queryset (where Django raises
`ObjectDoesNotExist`). -/
def latestByOrder : List OrderedRow → Option OrderedRow
  | [] => none
  | r :: rs =>
    match latestByOrder rs with
    | none => some r
    | some b => if b.order ≤ r.order then some r else some b

/-- `OrderField.pre_save` (fields.py lines 82-109): when the instance's order
value is unset, return `last_item.order + 1` for the latest same-parent row,
or `1` when no such row exists (the `ObjectDoesNotExist` branch); an explicit
order value passes through unchanged. -/
def preSaveOrder (rows : List OrderedRow) (inst : OrderedInstance) : Nat :=
  match inst.order with
  | some v => v
  | none =>
    match latestByOrder (siblings rows inst.parent) with
    | some lastItem => lastItem.order + 1
    | none => 1

theorem latestByOrder_eq_none {l : List OrderedRow} :
    latestByOrder l = none ↔ l = [] := by
  cases l with
  | nil => simp [latestByOrder]
  | cons r rs =>
    simp only [latestByOrder]
    cases h : latestByOrder rs with
    | none => simp
    | some b =>
      constructor
      · intro hc
        by_cases hle : b.order ≤ r.order <;> simp [hle] at hc
      · intro hc
        exact absurd hc (List.cons_ne_nil r rs)

theorem latestByOrder_mem {l : List OrderedRow} {r : OrderedRow}
    (h : latestByOrder l = some r) : r ∈ l := by
  induction l with
  | nil => simp [latestByOrder] at h
  | cons a as ih =>
    rw [latestByOrder] at h
    cases hl : latestByOrder as with
    | none =>
      rw [hl] at h
      simp at h
      simp [h]
    | some b =>
      rw [hl] at h
      by_cases hle : b.order ≤ a.order
      · simp [hle] at h
        simp [h]
      · simp [hle] at h
        exact List.mem_cons_of_mem a (ih (h ▸ hl))

theorem latestByOrder_ge : ∀ {l : List OrderedRow} {r : OrderedRow},
    latestByOrder l = some r → ∀ x ∈ l, x.order ≤ r.order
  | [], r, h => by simp [latestByOrder] at h
  | a :: as, r, h => by
    rw [latestByOrder] at h
    cases hl : latestByOrder as with
    | none =>
      rw [hl] at h
      simp at h
      intro x hx
      have hnil : as = [] := latestByOrder_eq_none.1 hl
      subst hnil
      rcases List.mem_cons.1 hx with hxa | hxas
      · simp [hxa, h]
      · simp at hxas
    | some b =>
      rw [hl] at h
      have hbs : ∀ y ∈ as, y.order ≤ b.order := latestByOrder_ge hl
      intro x hx
      rcases List.mem_cons.1 hx with hxa | hxas
      · subst hxa
        by_cases hle : b.order ≤ x.order
        · simp [hle] at h
          subst h
          exact Nat.le_refl _
        · simp [hle] at h
          subst h
          omega
      · have hxb := hbs x hxas
        by_cases hle : b.order ≤ a.order
        · simp [hle] at h
          subst h
          omega
        · simp [hle] at h
          subst h
          exact hxb

/-- C1: for a save of a new ProductLine (resp. ProductImage) whose order
value is unset, `OrderField.pre_save` assigns the maximum order among
existing rows with the same parent key plus one, assigns 1 when no such
sibling exists, and a row under a different parent never influences the
assigned value. -/
theorem preSaveOrder_correct (rows : List OrderedRow) (inst : OrderedInstance)
    (hnone : inst.order = none) :
    (siblings rows inst.parent = [] → preSaveOrder rows inst = 1) ∧
    (siblings rows inst.parent ≠ [] →
      (∃ r ∈ siblings rows inst.parent, preSaveOrder rows inst = r.order + 1) ∧
      ∀ r ∈ siblings rows inst.parent, r.order < preSaveOrder rows inst) ∧
    (∀ extra : OrderedRow, extra.parent ≠ inst.parent →
      preSaveOrder (extra :: rows) inst = preSaveOrder rows inst) := by
  refine ⟨?_, ?_, ?_⟩
  · intro he
    simp [preSaveOrder, hnone, he, latestByOrder]
  · intro hne
    cases hl : latestByOrder (siblings rows inst.parent) with
    | none => exact absurd (latestByOrder_eq_none.1 hl) hne
    | some lastItem =>
      constructor
      · exact ⟨lastItem, latestByOrder_mem hl, by simp [preSaveOrder, hnone, hl]⟩
      · intro r hr
        have := latestByOrder_ge hl r hr
        simp only [preSaveOrder, hnone, hl]
        omega
  · intro extra hpar
    have hs : siblings (extra :: rows) inst.parent = siblings rows inst.parent := by
      simp only [siblings, List.filter_cons]
      have : (extra.parent == inst.parent) = false := by
        simp [hpar]
      simp [this]
    simp [preSaveOrder, hnone, hs]

/-- Witness for C1 at a concrete state: two parents (10 and 20) with
overlapping order sequences; the row under parent 20 does not influence the
value assigned under parent 10. -/
theorem preSaveOrder_correct_witness :
    (⟨none, 10, none⟩ : OrderedInstance).order = none ∧
    ((siblings [⟨1, 10, 5⟩, ⟨2, 20, 9⟩, ⟨3, 10, 2⟩] 10 = [] →
      preSaveOrder [⟨1, 10, 5⟩, ⟨2, 20, 9⟩, ⟨3, 10, 2⟩] ⟨none, 10, none⟩ = 1) ∧
    (siblings [⟨1, 10, 5⟩, ⟨2, 20, 9⟩, ⟨3, 10, 2⟩] 10 ≠ [] →
      (∃ r ∈ siblings [⟨1, 10, 5⟩, ⟨2, 20, 9⟩, ⟨3, 10, 2⟩] 10,
        preSaveOrder [⟨1, 10, 5⟩, ⟨2, 20, 9⟩, ⟨3, 10, 2⟩] ⟨none, 10, none⟩ = r.order + 1) ∧
      ∀ r ∈ siblings [⟨1, 10, 5⟩, ⟨2, 20, 9⟩, ⟨3, 10, 2⟩] 10,
        r.order < preSaveOrder [⟨1, 10, 5⟩, ⟨2, 20, 9⟩, ⟨3, 10, 2⟩] ⟨none, 10, none⟩) ∧
    (∀ extra : OrderedRow, extra.parent ≠ (⟨none, 10, none⟩ : OrderedInstance).parent →
      preSaveOrder (extra :: [⟨1, 10, 5⟩, ⟨2, 20, 9⟩, ⟨3, 10, 2⟩]) ⟨none, 10, none⟩ =
        preSaveOrder [⟨1, 10, 5⟩, ⟨2, 20, 9⟩, ⟨3, 10, 2⟩] ⟨none, 10, none⟩)) :=
  ⟨rfl, preSaveOrder_correct [⟨1, 10, 5⟩, ⟨2, 20, 9⟩, ⟨3, 10, 2⟩] ⟨none, 10, none⟩ rfl⟩

/-- `ProductLine.clean` (models.py lines 157-169) and the identical
`ProductImage.clean` (lines 288-300): iterate over the stored rows whose
parent key equals the instance's, and raise
`ValidationError('Duplicate value.')` when some row with a different
primary key carries the same order value.  Returns `true` when the check
passes.  An unset order value (`none`) never equals a stored integer order,
mirroring Python `None == int` being false. -/
def cleanOrder (rows : List OrderedRow) (inst : OrderedInstance) : Bool :=
  (siblings rows inst.parent).all
    (fun obj => !(inst.id != some obj.id && inst.order == some obj.order))

/-- `ProductLine.save` / `ProductImage.save` (models.py): run `full_clean`
(whose model-level check is `clean`) and only then persist; the value
written to the order column is the one produced by `OrderField.pre_save`.
A new instance (`id = none`) is inserted with the fresh primary key the
database supplies; an existing instance updates the row carrying its
primary key.  A `ValidationError` aborts the save with nothing written. -/
def saveRow (rows : List OrderedRow) (inst : OrderedInstance) (freshId : Nat) :
    Except String (List OrderedRow) :=
  if cleanOrder rows inst then
    match inst.id with
    | none => .ok (rows ++ [⟨freshId, inst.parent, preSaveOrder rows inst⟩])
    | some i =>
      .ok (rows.map (fun r =>
        if r.id = i then ⟨i, inst.parent, preSaveOrder rows inst⟩ else r))
  else .error "Duplicate value."

/-- Primary keys of stored rows are pairwise distinct (the database
primary-key property). -/
def idsUnique (rows : List OrderedRow) : Prop :=
  rows.Pairwise (fun a b => a.id ≠ b.id)

/-- The spec invariant: among rows sharing one parent key, order values are
pairwise distinct. -/
def ordersUniquePerParent (rows : List OrderedRow) : Prop :=
  rows.Pairwise (fun a b => a.parent = b.parent → a.order ≠ b.order)

theorem cleanOrder_eq_true_iff (rows : List OrderedRow) (inst : OrderedInstance) :
    cleanOrder rows inst = true ↔
      ∀ obj ∈ rows, obj.parent = inst.parent → inst.id ≠ some obj.id →
        inst.order ≠ some obj.order := by
  simp only [cleanOrder, List.all_eq_true, siblings, List.mem_filter, beq_iff_eq,
    Bool.not_eq_eq_eq_not, Bool.not_true, Bool.and_eq_false_imp, bne_iff_ne, ne_eq,
    Bool.not_eq_true]
  constructor
  · intro h obj hm hp hid
    have := h obj ⟨hm, hp⟩
    by_cases hc : inst.order = some obj.order
    · simp [hc] at this
      exact absurd this hid
    · exact hc
  · intro h obj hm
    intro hid
    by_cases hc : inst.order = some obj.order
    · exact absurd hc (h obj hm.1 hm.2 hid)
    · simp [hc]

theorem pairwise_imp_mem {α : Type} {R S : α → α → Prop} :
    ∀ {l : List α}, (∀ a ∈ l, ∀ b ∈ l, R a b → S a b) → l.Pairwise R →
      l.Pairwise S := by
  intro l
  induction l with
  | nil => intro _ _; exact List.Pairwise.nil
  | cons x xs ih =>
    intro hmem hp
    rcases List.pairwise_cons.1 hp with ⟨hx, hxs⟩
    refine List.pairwise_cons.2 ⟨?_, ?_⟩
    · intro b hb
      exact hmem x (List.mem_cons_self x xs) b (List.mem_cons_of_mem x hb) (hx b hb)
    · exact ih (fun a ha b hb => hmem a (List.mem_cons_of_mem x ha) b
        (List.mem_cons_of_mem x hb)) hxs

/-- C3: saving a ProductLine (resp. ProductImage) with an explicit order
value raises the validation failure exactly when another row (different
primary key) with the same parent carries an identical order value; and in
a state satisfying the per-parent order-uniqueness invariant, re-saving an
existing row with its own unchanged order value never fails the check. -/
theorem cleanOrder_spec (rows : List OrderedRow) (inst : OrderedInstance)
    (hinv : ordersUniquePerParent rows) :
    (cleanOrder rows inst = false ↔
      ∃ obj ∈ rows, obj.parent = inst.parent ∧ inst.id ≠ some obj.id ∧
        inst.order = some obj.order) ∧
    (∀ r ∈ rows, inst.id = some r.id → inst.parent = r.parent →
      inst.order = some r.order → cleanOrder rows inst = true) := by
  have hiff := cleanOrder_eq_true_iff rows inst
  constructor
  · rw [← Bool.not_eq_true, ← not_iff_not, not_not, hiff]
    push_neg
    constructor
    · intro h obj hm hp hid hor
      exact (h obj hm hp hid) hor
    · intro h obj hm hp hid
      exact h obj hm hp hid
  · intro r hr hid hp hor
    rw [hiff]
    intro obj hobj hop hoid
    have hsym : Symmetric (fun a b : OrderedRow => a.parent = b.parent → a.order ≠ b.order) := by
      intro a b hab hp2
      exact fun he => (hab hp2.symm) he.symm
    have hne : r ≠ obj := by
      intro he
      exact hoid (he ▸ hid)
    have hrel := hinv.forall hsym hr hobj hne
    have hpar : r.parent = obj.parent := by
      rw [← hp, hop]
    have hord : r.order ≠ obj.order := hrel hpar
    rw [hor]
    intro hc
    exact hord (Option.some.injEq _ _ ▸ hc)

/-- Witness for C3: state with lines of product 10 at orders 1 and 2;
re-saving row 1 with its own order passes, and the duplicate
characterization holds at this concrete input. -/
theorem cleanOrder_spec_witness :
    ordersUniquePerParent [⟨1, 10, 1⟩, ⟨2, 10, 2⟩] ∧
    ((cleanOrder [⟨1, 10, 1⟩, ⟨2, 10, 2⟩] ⟨some 1, 10, some 1⟩ = false ↔
      ∃ obj ∈ [(⟨1, 10, 1⟩ : OrderedRow), ⟨2, 10, 2⟩], obj.parent = 10 ∧
        (some 1 : Option Nat) ≠ some obj.id ∧ (some 1 : Option Nat) = some obj.order) ∧
    (∀ r ∈ [(⟨1, 10, 1⟩ : OrderedRow), ⟨2, 10, 2⟩],
      (some 1 : Option Nat) = some r.id → 10 = r.parent →
      (some 1 : Option Nat) = some r.order →
      cleanOrder [⟨1, 10, 1⟩, ⟨2, 10, 2⟩] ⟨some 1, 10, some 1⟩ = true)) :=
  ⟨by unfold ordersUniquePerParent; decide,
   cleanOrder_spec [⟨1, 10, 1⟩, ⟨2, 10, 2⟩] ⟨some 1, 10, some 1⟩
     (by unfold ordersUniquePerParent; decide)⟩

/-- C2: a successful `save` of a ProductLine (resp. ProductImage) — with an
auto-assigned or an explicit order value, inserting a new row or updating
an existing one — preserves the invariant that order values are pairwise
distinct among rows sharing one parent key, together with primary-key
distinctness; hence the invariant holds along every sequence of successful
saves from a state satisfying it. -/
theorem saveRow_preserves_invariants (rows : List OrderedRow)
    (inst : OrderedInstance) (freshId : Nat) (rows2 : List OrderedRow)
    (hids : idsUnique rows) (hinv : ordersUniquePerParent rows)
    (hfresh : ∀ r ∈ rows, r.id ≠ freshId)
    (hsave : saveRow rows inst freshId = Except.ok rows2) :
    ordersUniquePerParent rows2 ∧ idsUnique rows2 := by
  cases hc : cleanOrder rows inst with
  | false => simp [saveRow, hc] at hsave
  | true =>
  have hclean := (cleanOrder_eq_true_iff rows inst).1 hc
  have hkey : ∀ obj ∈ rows, obj.parent = inst.parent → inst.id ≠ some obj.id →
      obj.order ≠ preSaveOrder rows inst := by
    intro obj hm hp hid
    cases hio : inst.order with
    | some w =>
      have hno := hclean obj hm hp hid
      rw [hio] at hno
      have hvw : preSaveOrder rows inst = w := by simp [preSaveOrder, hio]
      rw [hvw]
      exact fun he => hno (by rw [he])
    | none =>
      have hsib : obj ∈ siblings rows inst.parent := by
        simp [siblings, List.mem_filter, hm, hp]
      have hne : siblings rows inst.parent ≠ [] := by
        intro he
        rw [he] at hsib
        simp at hsib
      have := ((preSaveOrder_correct rows inst hio).2.1 hne).2 obj hsib
      omega
  cases hii : inst.id with
  | none =>
    have hrows2 : rows2 = rows ++ [⟨freshId, inst.parent, preSaveOrder rows inst⟩] := by
      simp [saveRow, hc, hii] at hsave
      exact hsave.symm
    subst hrows2
    constructor
    · unfold ordersUniquePerParent
      rw [List.pairwise_append]
      refine ⟨hinv, List.pairwise_singleton _ _, ?_⟩
      intro a ha b hb
      simp only [List.mem_singleton] at hb
      subst hb
      intro hp
      exact hkey a ha hp (by rw [hii]; exact fun he => Option.noConfusion he)
    · unfold idsUnique
      rw [List.pairwise_append]
      refine ⟨hids, List.pairwise_singleton _ _, ?_⟩
      intro a ha b hb
      simp only [List.mem_singleton] at hb
      subst hb
      exact hfresh a ha
  | some i =>
    have hrows2 : rows2 = rows.map (fun r =>
        if r.id = i then ⟨i, inst.parent, preSaveOrder rows inst⟩ else r) := by
      simp [saveRow, hc, hii] at hsave
      exact hsave.symm
    subst hrows2
    have hfid : ∀ r : OrderedRow,
        ((if r.id = i then (⟨i, inst.parent, preSaveOrder rows inst⟩ : OrderedRow)
          else r)).id = r.id := by
      intro r
      by_cases h : r.id = i <;> simp [h]
    have hcomb := hids.and hinv
    constructor
    · unfold ordersUniquePerParent
      rw [List.pairwise_map]
      refine pairwise_imp_mem ?_ hcomb
      intro a ha b hb hab
      by_cases hai : a.id = i <;> by_cases hbi : b.id = i
      · exact absurd (hai.trans hbi.symm) hab.1
      · simp only [if_pos hai, if_neg hbi]
        intro hp
        have hb2 := hkey b hb hp.symm
          (by rw [hii]; exact fun he => hbi (Option.some.inj he).symm)
        exact fun he => hb2 he.symm
      · simp only [if_pos hbi, if_neg hai]
        intro hp
        exact hkey a ha hp (by rw [hii]; exact fun he => hai (Option.some.inj he).symm)
      · simp only [if_neg hai, if_neg hbi]
        exact hab.2
    · unfold idsUnique
      rw [List.pairwise_map]
      refine pairwise_imp_mem ?_ hids
      intro a ha b hb hab
      simp only [hfid]
      exact hab

/-- Witness for C2: saving a new line of product 10 with order unset into a
state with orders 1 and 2 yields a state still satisfying both invariants. -/
theorem saveRow_preserves_invariants_witness :
    idsUnique [⟨1, 10, 1⟩, ⟨2, 10, 2⟩] ∧
    ordersUniquePerParent [⟨1, 10, 1⟩, ⟨2, 10, 2⟩] ∧
    (∀ r ∈ [(⟨1, 10, 1⟩ : OrderedRow), ⟨2, 10, 2⟩], r.id ≠ 7) ∧
    (ordersUniquePerParent [⟨1, 10, 1⟩, ⟨2, 10, 2⟩, ⟨7, 10, 3⟩] ∧
      idsUnique [⟨1, 10, 1⟩, ⟨2, 10, 2⟩, ⟨7, 10, 3⟩]) :=
  ⟨by unfold idsUnique; decide, by unfold ordersUniquePerParent; decide,
   by decide,
   saveRow_preserves_invariants [⟨1, 10, 1⟩, ⟨2, 10, 2⟩] ⟨none, 10, none⟩ 7
     [⟨1, 10, 1⟩, ⟨2, 10, 2⟩, ⟨7, 10, 3⟩]
     (by unfold idsUnique; decide) (by unfold ordersUniquePerParent; decide)
     (by decide) rfl⟩

/-- An `AttributeValue` row (models.py lines 105-122): primary key, the
foreign key to its `Attribute`, that attribute's name, and the value
text. -/
structure AttributeValueRow where
  id : Nat
  attributeId : Nat
  attributeName : String
  value : String
deriving DecidableEq, Repr

/-- A stored `ProductLineAttributeValue` join row: primary key, foreign key
to the `AttributeValue`, foreign key to the `ProductLine`. -/
structure PLAVRow where
  id : Nat
  avId : Nat
  plId : Nat
deriving DecidableEq, Repr

/-- The stored state queried by the `ProductLineAttributeValue` validators:
the `AttributeValue` table and the join table. -/
structure PLAVState where
  attributeValues : List AttributeValueRow
  joins : List PLAVRow
deriving DecidableEq, Repr

/-- `ProductLineAttributeValue.clean` (models.py lines 231-249): when the
exact (attribute_value, product_line) pair is not already stored, collect
the primary keys of the Attributes having some value linked through the
join table to this product line, and raise
`ValidationError('Duplicate attribute exists')` when the instance's
attribute is among them.  Returns `true` when the check passes. -/
def plavClean (s : PLAVState) (av : AttributeValueRow) (plId : Nat) : Bool :=
  if s.joins.any (fun j => j.avId == av.id && j.plId == plId) then true
  else
    let iqs := (s.attributeValues.filter
      (fun a => s.joins.any (fun j => j.avId == a.id && j.plId == plId))).map
      (fun a => a.attributeId)
    !(iqs.contains av.attributeId)

/-- `Model.validate_unique`, run by the `full_clean` that
`ProductLineAttributeValue.save` calls, applied to
`Meta.unique_together ('attribute_value', 'product_line')` (models.py
lines 228-229): a stored row carrying the same pair — the row being saved
excluded by primary key — makes the check fail with a
`ValidationError('... already exists.')`.  Returns `true` when the check
passes. -/
def plavValidateUnique (s : PLAVState) (instId : Option Nat)
    (av : AttributeValueRow) (plId : Nat) : Bool :=
  !(s.joins.any (fun j =>
      j.avId == av.id && j.plId == plId && !(some j.id == instId)))

/-- `ProductLineAttributeValue.save` (models.py lines 251-265):
`full_clean` — which runs both `clean` and `validate_unique` — and only
then persist.  A new instance (`instId = none`) is inserted with the fresh
primary key the database supplies; an existing instance updates the row
carrying its primary key.  A `ValidationError` from either check aborts
the save with nothing written. -/
def plavSave (s : PLAVState) (instId : Option Nat) (av : AttributeValueRow)
    (plId : Nat) (freshId : Nat) : Except String PLAVState :=
  if !(plavClean s av plId) then .error "Duplicate attribute exists"
  else if !(plavValidateUnique s instId av plId) then
    .error "Product line attribute value with this Attribute value and Product line already exists."
  else
    match instId with
    | none => .ok { s with joins := s.joins ++ [⟨freshId, av.id, plId⟩] }
    | some i =>
      .ok { s with joins := s.joins.map (fun j =>
        if j.id = i then ⟨i, av.id, plId⟩ else j) }

theorem any_join_pair_iff (l : List PLAVRow) (a b : Nat) :
    l.any (fun j => j.avId == a && j.plId == b) = true ↔
      ∃ j ∈ l, j.avId = a ∧ j.plId = b := by
  simp [List.any_eq_true]

theorem plavClean_eq_false_iff (s : PLAVState) (av : AttributeValueRow)
    (plId : Nat) :
    plavClean s av plId = false ↔
      ((¬ ∃ j ∈ s.joins, j.avId = av.id ∧ j.plId = plId) ∧
        ∃ a ∈ s.attributeValues,
          (∃ j ∈ s.joins, j.avId = a.id ∧ j.plId = plId) ∧
          a.attributeId = av.attributeId) := by
  unfold plavClean
  cases hpair : s.joins.any (fun j => j.avId == av.id && j.plId == plId) with
  | true =>
    simp only [if_true]
    constructor
    · intro h
      exact absurd h (by simp)
    · rintro ⟨hnot, _⟩
      exact absurd ((any_join_pair_iff s.joins av.id plId).1 hpair) hnot
  | false =>
    have hnot : ¬ ∃ j ∈ s.joins, j.avId = av.id ∧ j.plId = plId := fun hm =>
      by simp [(any_join_pair_iff s.joins av.id plId).2 hm] at hpair
    simp only [Bool.false_eq_true, if_false, Bool.not_eq_false']
    rw [List.contains_iff_exists_mem_beq]
    simp only [List.mem_map, List.mem_filter, beq_iff_eq]
    constructor
    · rintro ⟨x, ⟨a, ⟨ham, hlink⟩, hax⟩, hx⟩
      exact ⟨hnot, a, ham, (any_join_pair_iff s.joins a.id plId).1 hlink,
        by rw [hax, hx]⟩
    · rintro ⟨_, a, ham, hlink, heq⟩
      exact ⟨a.attributeId,
        ⟨a, ⟨ham, (any_join_pair_iff s.joins a.id plId).2 hlink⟩, rfl⟩, heq.symm⟩

theorem plavValidateUnique_eq_false_iff (s : PLAVState) (instId : Option Nat)
    (av : AttributeValueRow) (plId : Nat) :
    plavValidateUnique s instId av plId = false ↔
      ∃ j ∈ s.joins, j.avId = av.id ∧ j.plId = plId ∧ some j.id ≠ instId := by
  unfold plavValidateUnique
  simp [List.any_eq_true, and_assoc]

/-- Counterexample for C4 as stated: with the pair (value 1, line 50)
already stored as join row 1, saving a new join instance carrying the
identical pair is not a no-op — the `validate_unique` check run by
`full_clean` rejects the `unique_together` duplicate, so the save fails. -/
theorem plavSave_duplicate_pair_not_noop :
    plavSave ⟨[⟨1, 100, "Color", "Red"⟩], [⟨1, 1, 50⟩]⟩ none
      ⟨1, 100, "Color", "Red"⟩ 50 2 =
      Except.error
        "Product line attribute value with this Attribute value and Product line already exists." :=
  rfl

/-- C4 (amended): saving a new ProductLine-to-AttributeValue join instance
fails the attribute-axis validation when the product line already carries a
value of the same attribute through another join; a new instance over an
already-stored identical pair fails uniqueness validation
(`validate_unique` on `unique_together`) rather than being silently
ignored; re-saving the stored join row itself (same primary key, unchanged
fields) passes both checks and leaves the stored joins unchanged — a
no-op; and a new, conflict-free pair is appended.  The two `Pairwise`
hypotheses are the database guarantees: distinct primary keys and the
`unique_together` pair constraint on the stored rows. -/
theorem plavSave_spec (s : PLAVState) (av : AttributeValueRow)
    (plId : Nat) (freshId : Nat)
    (hpk : s.joins.Pairwise (fun a b => a.id ≠ b.id))
    (hpairs : s.joins.Pairwise (fun a b => a.avId = b.avId → a.plId ≠ b.plId)) :
    ((¬ ∃ j ∈ s.joins, j.avId = av.id ∧ j.plId = plId) →
      (∃ a ∈ s.attributeValues,
        (∃ j ∈ s.joins, j.avId = a.id ∧ j.plId = plId) ∧
        a.attributeId = av.attributeId) →
      plavSave s none av plId freshId =
        Except.error "Duplicate attribute exists") ∧
    ((∃ j ∈ s.joins, j.avId = av.id ∧ j.plId = plId) →
      plavSave s none av plId freshId = Except.error
        "Product line attribute value with this Attribute value and Product line already exists.") ∧
    (∀ r ∈ s.joins, r.avId = av.id → r.plId = plId →
      plavSave s (some r.id) av plId freshId = .ok s) ∧
    ((¬ ∃ j ∈ s.joins, j.avId = av.id ∧ j.plId = plId) →
      (∀ a ∈ s.attributeValues,
        (∃ j ∈ s.joins, j.avId = a.id ∧ j.plId = plId) →
        a.attributeId ≠ av.attributeId) →
      plavSave s none av plId freshId =
        .ok { s with joins := s.joins ++ [⟨freshId, av.id, plId⟩] }) := by
  refine ⟨?_, ?_, ?_, ?_⟩
  · intro hnot hex
    have hfalse : plavClean s av plId = false :=
      (plavClean_eq_false_iff s av plId).2 ⟨hnot, hex⟩
    simp [plavSave, hfalse]
  · rintro ⟨j, hj, h1, h2⟩
    have hclean : plavClean s av plId = true := by
      unfold plavClean
      rw [(any_join_pair_iff s.joins av.id plId).2 ⟨j, hj, h1, h2⟩]
      simp
    have hvu : plavValidateUnique s none av plId = false :=
      (plavValidateUnique_eq_false_iff s none av plId).2
        ⟨j, hj, h1, h2, by simp⟩
    simp [plavSave, hclean, hvu]
  · intro r hr h1 h2
    have hclean : plavClean s av plId = true := by
      unfold plavClean
      rw [(any_join_pair_iff s.joins av.id plId).2 ⟨r, hr, h1, h2⟩]
      simp
    have hvu : plavValidateUnique s (some r.id) av plId = true := by
      cases hv : plavValidateUnique s (some r.id) av plId with
      | true => rfl
      | false =>
        rcases (plavValidateUnique_eq_false_iff s (some r.id) av plId).1 hv
          with ⟨j, hj, hj1, hj2, hjid⟩
        have hsym : Symmetric
            (fun a b : PLAVRow => a.avId = b.avId → a.plId ≠ b.plId) := by
          intro a b hab hp
          exact fun he => (hab hp.symm) he.symm
        have hne : j ≠ r := fun he => hjid (by rw [he])
        have := hpairs.forall hsym hj hr hne
        exact absurd (hj2.trans h2.symm) (this (hj1.trans h1.symm))
    have hmap : s.joins.map (fun j =>
        if j.id = r.id then (⟨r.id, av.id, plId⟩ : PLAVRow) else j) = s.joins := by
      have hpksym : Symmetric (fun a b : PLAVRow => a.id ≠ b.id) := by
        intro a b hab
        exact fun he => hab he.symm
      have : ∀ j ∈ s.joins,
          (if j.id = r.id then (⟨r.id, av.id, plId⟩ : PLAVRow) else j) = j := by
        intro j hj
        by_cases hid : j.id = r.id
        · have hjr : j = r := by
            by_contra hne
            exact (hpk.forall hpksym hj hr hne) hid
          rw [if_pos hid, hjr, ← h1, ← h2]
        · rw [if_neg hid]
      calc s.joins.map (fun j =>
            if j.id = r.id then (⟨r.id, av.id, plId⟩ : PLAVRow) else j)
          = s.joins.map id := List.map_congr_left this
        _ = s.joins := List.map_id s.joins
    simp only [plavSave, hclean, hvu, Bool.not_true, Bool.false_eq_true,
      if_false, hmap]
  · intro hnot hall
    have hclean : plavClean s av plId = true := by
      cases hcl : plavClean s av plId with
      | true => rfl
      | false =>
        rcases (plavClean_eq_false_iff s av plId).1 hcl with ⟨_, a, ham, hlink, heq⟩
        exact absurd heq (hall a ham hlink)
    have hvu : plavValidateUnique s none av plId = true := by
      cases hv : plavValidateUnique s none av plId with
      | true => rfl
      | false =>
        rcases (plavValidateUnique_eq_false_iff s none av plId).1 hv
          with ⟨j, hj, hj1, hj2, _⟩
        exact absurd ⟨j, hj, hj1, hj2⟩ hnot
    simp [plavSave, hclean, hvu]

/-- Witness for C4 at a concrete state: line 50 already carries value 1 of
attribute 100 through join row 1; attaching value 2 of the same attribute
fails the attribute-axis check, and re-saving join row 1 itself with its
unchanged fields is accepted and changes nothing. -/
theorem plavSave_spec_witness :
    List.Pairwise (fun a b : PLAVRow => a.id ≠ b.id) [⟨1, 1, 50⟩] ∧
    List.Pairwise (fun a b : PLAVRow => a.avId = b.avId → a.plId ≠ b.plId)
      [⟨1, 1, 50⟩] ∧
    plavSave ⟨[⟨1, 100, "Color", "Red"⟩, ⟨2, 100, "Color", "Blue"⟩], [⟨1, 1, 50⟩]⟩
      none ⟨2, 100, "Color", "Blue"⟩ 50 9 =
      Except.error "Duplicate attribute exists" ∧
    plavSave ⟨[⟨1, 100, "Color", "Red"⟩, ⟨2, 100, "Color", "Blue"⟩], [⟨1, 1, 50⟩]⟩
      (some 1) ⟨1, 100, "Color", "Red"⟩ 50 9 =
      .ok ⟨[⟨1, 100, "Color", "Red"⟩, ⟨2, 100, "Color", "Blue"⟩], [⟨1, 1, 50⟩]⟩ := by
  refine ⟨by decide, by decide, ?_, ?_⟩
  · exact (plavSave_spec
      ⟨[⟨1, 100, "Color", "Red"⟩, ⟨2, 100, "Color", "Blue"⟩], [⟨1, 1, 50⟩]⟩
      ⟨2, 100, "Color", "Blue"⟩ 50 9 (by decide) (by decide)).1
      (by decide)
      ⟨⟨1, 100, "Color", "Red"⟩, by simp, ⟨⟨1, 1, 50⟩, by simp, rfl, rfl⟩, rfl⟩
  · exact (plavSave_spec
      ⟨[⟨1, 100, "Color", "Red"⟩, ⟨2, 100, "Color", "Blue"⟩], [⟨1, 1, 50⟩]⟩
      ⟨1, 100, "Color", "Red"⟩ 50 9 (by decide) (by decide)).2.2.1
      ⟨1, 1, 50⟩ (by simp) rfl rfl

/-- C5: for both overridden `save` methods every check `full_clean` runs —
the order validator for ProductLine/ProductImage (which have no uniqueness
constraints of their own), and for the join both the attribute-axis
validator and `validate_unique` — executes before persistence: the save
raises exactly when some check rejects, a successful save presupposes
every check passing, and a failed save produces no new stored state (the
`Except.error` branch carries none), so the stored rows are left
completely unchanged on failure. -/
theorem save_validates_before_persist :
    (∀ (rows : List OrderedRow) (inst : OrderedInstance) (freshId : Nat),
      ((∃ e, saveRow rows inst freshId = Except.error e) ↔
        cleanOrder rows inst = false) ∧
      ∀ rows2, saveRow rows inst freshId = Except.ok rows2 →
        cleanOrder rows inst = true) ∧
    (∀ (s : PLAVState) (instId : Option Nat) (av : AttributeValueRow)
        (plId freshId : Nat),
      ((∃ e, plavSave s instId av plId freshId = Except.error e) ↔
        (plavClean s av plId = false ∨
          plavValidateUnique s instId av plId = false)) ∧
      ∀ s2, plavSave s instId av plId freshId = Except.ok s2 →
        plavClean s av plId = true ∧
          plavValidateUnique s instId av plId = true) := by
  constructor
  · intro rows inst freshId
    cases hc : cleanOrder rows inst with
    | false =>
      refine ⟨⟨fun _ => rfl, fun _ => ⟨"Duplicate value.", by simp [saveRow, hc]⟩⟩, ?_⟩
      intro rows2 hok
      simp [saveRow, hc] at hok
    | true =>
      refine ⟨⟨?_, fun h => by simp at h⟩, fun _ _ => rfl⟩
      rintro ⟨e, he⟩
      cases hii : inst.id <;> simp [saveRow, hc, hii] at he
  · intro s instId av plId freshId
    cases hc : plavClean s av plId with
    | false =>
      refine ⟨⟨fun _ => Or.inl rfl, fun _ =>
        ⟨"Duplicate attribute exists", by simp [plavSave, hc]⟩⟩, ?_⟩
      intro s2 hok
      simp [plavSave, hc] at hok
    | true =>
      cases hv : plavValidateUnique s instId av plId with
      | false =>
        refine ⟨⟨fun _ => Or.inr rfl, fun _ =>
          ⟨"Product line attribute value with this Attribute value and Product line already exists.",
            by simp [plavSave, hc, hv]⟩⟩, ?_⟩
        intro s2 hok
        simp [plavSave, hc, hv] at hok
      | true =>
        refine ⟨⟨?_, ?_⟩, fun _ _ => ⟨rfl, rfl⟩⟩
        · rintro ⟨e, he⟩
          cases instId <;> simp [plavSave, hc, hv] at he
        · rintro (h | h) <;> simp at h

/-- Witness for C5 at a concrete state: inserting a new line whose explicit
order 1 collides with the stored row fails, writing nothing. -/
theorem save_validates_before_persist_witness :
    cleanOrder [⟨1, 10, 1⟩] ⟨none, 10, some 1⟩ = false ∧
    (∃ e, saveRow [⟨1, 10, 1⟩] ⟨none, 10, some 1⟩ 5 = Except.error e) :=
  ⟨rfl, ((save_validates_before_persist.1 [⟨1, 10, 1⟩] ⟨none, 10, some 1⟩ 5).1).2 rfl⟩

/-- A serialized JSON-like value produced by the serializers.  The Python
dicts with integer keys (the line-level specification map) and with string
keys (the product-level attribute map) are kept as association lists. -/
inductive JVal where
  | s : String → JVal
  | n : Int → JVal
  | arr : List JVal → JVal
  | obj : List (String × JVal) → JVal
  | imap : List (Nat × String) → JVal
  | smap : List (String × String) → JVal

/-- Python dict assignment `d[k] = v` on an association list: replace the
value at an existing key in place, otherwise append the pair. -/
def dictUpdate {α β : Type} [DecidableEq α] : List (α × β) → α → β → List (α × β)
  | [], k, v => [(k, v)]
  | e :: d, k, v => if e.1 = k then (k, v) :: d else e :: dictUpdate d k v

/-- Python dict lookup `d[k]` (as an `Option`). -/
def dictLookup {α β : Type} [DecidableEq α] : List (α × β) → α → Option β
  | [], _ => none
  | e :: d, k => if e.1 = k then some e.2 else dictLookup d k

/-- Python `d.pop(k)`, restricted to its effect on the remaining dict. -/
def dictPop {α β : Type} [DecidableEq α] (d : List (α × β)) (k : α) :
    List (α × β) :=
  d.filter (fun e => !(decide (e.1 = k)))

theorem dictLookup_update_self {α β : Type} [DecidableEq α]
    (d : List (α × β)) (k : α) (v : β) :
    dictLookup (dictUpdate d k v) k = some v := by
  induction d with
  | nil => simp [dictUpdate, dictLookup]
  | cons e d ih =>
    by_cases h : e.1 = k
    · simp [dictUpdate, h, dictLookup]
    · simp [dictUpdate, h, dictLookup, ih]

theorem dictLookup_update_other {α β : Type} [DecidableEq α]
    (d : List (α × β)) (k k2 : α) (v : β) (h : k2 ≠ k) :
    dictLookup (dictUpdate d k v) k2 = dictLookup d k2 := by
  induction d with
  | nil =>
    simp only [dictUpdate, dictLookup]
    rw [if_neg (fun he : k = k2 => h he.symm)]
  | cons e d ih =>
    by_cases he : e.1 = k
    · have : ¬(k = k2) := fun hc => h hc.symm
      simp [dictUpdate, he, dictLookup, this]
    · simp [dictUpdate, he, dictLookup, ih]

theorem dictLookup_pop_self {α β : Type} [DecidableEq α]
    (d : List (α × β)) (k : α) :
    dictLookup (dictPop d k) k = none := by
  induction d with
  | nil => simp [dictPop, dictLookup]
  | cons e d ih =>
    by_cases h : e.1 = k
    · simpa [dictPop, h, List.filter_cons] using ih
    · simp only [dictPop, List.filter_cons] at ih ⊢
      simp [h, dictLookup, ih]

theorem dictLookup_foldl_update {α β γ : Type} [DecidableEq α]
    (f : γ → α) (g : γ → β) (k : α) (xs : List γ) :
    dictLookup (xs.foldl (fun d x => dictUpdate d (f x) (g x)) []) k =
      (xs.reverse.find? (fun x => decide (f x = k))).map g := by
  suffices h : ∀ (xs : List γ) (acc : List (α × β)),
      dictLookup (xs.foldl (fun d x => dictUpdate d (f x) (g x)) acc) k =
        match xs.reverse.find? (fun x => decide (f x = k)) with
        | some y => some (g y)
        | none => dictLookup acc k by
    rw [h xs []]
    cases xs.reverse.find? (fun x => decide (f x = k)) <;> simp [dictLookup]
  intro xs
  induction xs with
  | nil => intro acc; simp
  | cons x xs ih =>
    intro acc
    rw [List.foldl_cons, ih, List.reverse_cons]
    cases hf : xs.reverse.find? (fun x => decide (f x = k)) with
    | some y =>
      rw [List.find?_append, hf]
      rfl
    | none =>
      rw [List.find?_append, hf]
      simp only [Option.none_orElse]
      by_cases hx : f x = k
      · have hfind : (List.find? (fun x => decide (f x = k)) [x]) = some x := by
          simp [List.find?_cons, hx]
        rw [hfind, hx]
        exact dictLookup_update_self acc k (g x)
      · have hfind : (List.find? (fun x => decide (f x = k)) [x]) = none := by
          simp [List.find?_cons, hx]
        rw [hfind]
        exact dictLookup_update_other acc (f x) k (g x) (fun he => hx he.symm)

theorem mem_dictUpdate_key {α β : Type} [DecidableEq α] :
    ∀ (d : List (α × β)) (k : α) (v : β) (e : α × β),
      e ∈ dictUpdate d k v → e.1 = k ∨ e ∈ d := by
  intro d
  induction d with
  | nil =>
    intro k v e he
    simp [dictUpdate] at he
    simp [he]
  | cons x d ih =>
    intro k v e he
    by_cases hx : x.1 = k
    · simp only [dictUpdate, if_pos hx] at he
      rcases List.mem_cons.1 he with h1 | h2
      · exact Or.inl (by simp [h1])
      · exact Or.inr (List.mem_cons_of_mem x h2)
    · simp only [dictUpdate, if_neg hx] at he
      rcases List.mem_cons.1 he with h1 | h2
      · exact Or.inr (h1 ▸ List.mem_cons_self x d)
      · rcases ih k v e h2 with h3 | h4
        · exact Or.inl h3
        · exact Or.inr (List.mem_cons_of_mem x h4)

theorem dictUpdate_keys_pairwise {α β : Type} [DecidableEq α] :
    ∀ (d : List (α × β)) (k : α) (v : β),
      d.Pairwise (fun a b => a.1 ≠ b.1) →
      (dictUpdate d k v).Pairwise (fun a b => a.1 ≠ b.1) := by
  intro d
  induction d with
  | nil => intro k v _; simp [dictUpdate]
  | cons x d ih =>
    intro k v h
    rcases List.pairwise_cons.1 h with ⟨hx, hd⟩
    by_cases hxk : x.1 = k
    · simp only [dictUpdate, if_pos hxk]
      refine List.pairwise_cons.2 ⟨?_, hd⟩
      intro e he
      exact fun hc => (hx e he) (hxk.trans hc)
    · simp only [dictUpdate, if_neg hxk]
      refine List.pairwise_cons.2 ⟨?_, ih k v hd⟩
      intro e he
      rcases mem_dictUpdate_key d k v e he with h1 | h2
      · exact fun hc => hxk (hc.trans h1)
      · exact hx e h2

/-- A `ProductImage` row as `ProductImageSerializer` sees it. -/
structure ImageData where
  alternativeText : String
  url : String
  order : Nat
deriving DecidableEq, Repr

/-- A `ProductLine` with its prefetched images and attribute values
(`product_line__product_image`, `product_line__attribute_value__attribute`). -/
structure LineData where
  price : Int
  sku : String
  stockQty : Int
  order : Nat
  images : List ImageData
  attributeValues : List AttributeValueRow
deriving DecidableEq, Repr

/-- A `Product` with its prefetched lines and product-level attribute
values, plus the fields the viewsets filter on. -/
structure ProductData where
  name : String
  slug : String
  pid : String
  description : String
  isActive : Bool
  categorySlug : String
  createdAt : Int
  lines : List LineData
  attributeValues : List AttributeValueRow
deriving DecidableEq, Repr

/-- `ProductImageSerializer` (serializers.py lines 16-22): every model field
except the excluded `id` and `product_line`. -/
def productImageSerialize (i : ImageData) : JVal :=
  .obj [("alternative_text", .s i.alternativeText), ("url", .s i.url),
        ("order", .n (i.order : Int))]

/-- `AttributeValueSerializer` (serializers.py lines 34-42) with its nested
`AttributeSerializer` (`id`, `name`). -/
def attributeValueSerialize (a : AttributeValueRow) : JVal :=
  .obj [("id", .n (a.id : Int)),
        ("attribute", .obj [("id", .n (a.attributeId : Int)),
                            ("name", .s a.attributeName)]),
        ("attribute_value", .s a.value)]

/-- The loop of `ProductLineSerializer.to_representation`: for each
serialized attribute value, assign
`attr_values[key['attribute']['id']] = key['attribute_value']`;
`key['attribute']['id']` is the value's attribute id and
`key['attribute_value']` its text. -/
def buildSpecification (avs : List AttributeValueRow) : List (Nat × String) :=
  avs.foldl (fun acc a => dictUpdate acc a.attributeId a.value) []

/-- The loop of `ProductSerializer.to_representation`: the same dict, keyed
by `key['attribute']['name']`, the attribute's name. -/
def buildAttributeMap (avs : List AttributeValueRow) : List (String × String) :=
  avs.foldl (fun acc a => dictUpdate acc a.attributeName a.value) []

/-- `ProductLineSerializer.to_representation` (serializers.py lines 56-64):
serialize the declared fields, pop `attribute_value`, and add the
`specification` dict. -/
def productLineToRepresentation (l : LineData) : List (String × JVal) :=
  let data : List (String × JVal) :=
    [("price", .n l.price), ("sku", .s l.sku), ("stock_qty", .n l.stockQty),
     ("order", .n (l.order : Int)),
     ("product_image", .arr (l.images.map productImageSerialize)),
     ("attribute_value", .arr (l.attributeValues.map attributeValueSerialize))]
  dictUpdate (dictPop data "attribute_value") "specification"
    (.imap (buildSpecification l.attributeValues))

/-- `ProductSerializer.to_representation` (serializers.py lines 78-87):
serialize the declared fields, pop `attribute_value`, and add the
`attribute` dict. -/
def productToRepresentation (p : ProductData) : List (String × JVal) :=
  let data : List (String × JVal) :=
    [("name", .s p.name), ("slug", .s p.slug), ("pid", .s p.pid),
     ("description", .s p.description),
     ("product_line", .arr (p.lines.map (fun l => .obj (productLineToRepresentation l)))),
     ("attribute_value", .arr (p.attributeValues.map attributeValueSerialize))]
  dictUpdate (dictPop data "attribute_value") "attribute"
    (.smap (buildAttributeMap p.attributeValues))

/-- C6: the serialized ProductLine document carries a `specification` field
holding the flat attribute-id-to-value-text map built from the line's
attribute values, the serialized Product document carries an `attribute`
field holding the flat attribute-name-to-value-text map built from the
product's attribute values, the nested `attribute_value` list is removed
from both outputs, and every entry of either map stems from one of the
attribute values it was built from. -/
theorem serializers_flatten_attribute_maps :
    (∀ l : LineData,
      dictLookup (productLineToRepresentation l) "attribute_value" = none ∧
      dictLookup (productLineToRepresentation l) "specification" =
        some (.imap (buildSpecification l.attributeValues)) ∧
      ∀ k v, dictLookup (buildSpecification l.attributeValues) k = some v →
        ∃ a ∈ l.attributeValues, a.attributeId = k ∧ a.value = v) ∧
    (∀ p : ProductData,
      dictLookup (productToRepresentation p) "attribute_value" = none ∧
      dictLookup (productToRepresentation p) "attribute" =
        some (.smap (buildAttributeMap p.attributeValues)) ∧
      ∀ k v, dictLookup (buildAttributeMap p.attributeValues) k = some v →
        ∃ a ∈ p.attributeValues, a.attributeName = k ∧ a.value = v) := by
  constructor
  · intro l
    refine ⟨?_, ?_, ?_⟩
    · rw [productLineToRepresentation,
        dictLookup_update_other _ _ _ _ (by decide), dictLookup_pop_self]
    · rw [productLineToRepresentation, dictLookup_update_self]
    · intro k v h
      rw [buildSpecification, dictLookup_foldl_update] at h
      rcases Option.map_eq_some'.1 h with ⟨a, hfind, hval⟩
      have hmem : a ∈ l.attributeValues.reverse := List.mem_of_find?_eq_some hfind
      have hk := List.find?_some hfind
      simp only [decide_eq_true_eq] at hk
      exact ⟨a, List.mem_reverse.1 hmem, hk, hval⟩
  · intro p
    refine ⟨?_, ?_, ?_⟩
    · rw [productToRepresentation,
        dictLookup_update_other _ _ _ _ (by decide), dictLookup_pop_self]
    · rw [productToRepresentation, dictLookup_update_self]
    · intro k v h
      rw [buildAttributeMap, dictLookup_foldl_update] at h
      rcases Option.map_eq_some'.1 h with ⟨a, hfind, hval⟩
      have hmem : a ∈ p.attributeValues.reverse := List.mem_of_find?_eq_some hfind
      have hk := List.find?_some hfind
      simp only [decide_eq_true_eq] at hk
      exact ⟨a, List.mem_reverse.1 hmem, hk, hval⟩

/-- Witness for C6 at a concrete line and product with two attribute
values. -/
theorem serializers_flatten_attribute_maps_witness :
    (dictLookup (productLineToRepresentation
        ⟨500, "sku1", 3, 1, [], [⟨1, 100, "Color", "Red"⟩]⟩) "attribute_value" = none ∧
      dictLookup (productLineToRepresentation
        ⟨500, "sku1", 3, 1, [], [⟨1, 100, "Color", "Red"⟩]⟩) "specification" =
        some (.imap (buildSpecification [⟨1, 100, "Color", "Red"⟩])) ∧
      ∀ k v, dictLookup (buildSpecification [⟨1, 100, "Color", "Red"⟩]) k = some v →
        ∃ a ∈ [(⟨1, 100, "Color", "Red"⟩ : AttributeValueRow)],
          a.attributeId = k ∧ a.value = v) ∧
    (dictLookup (productToRepresentation
        ⟨"P", "p", "p1", "", true, "c", 0, [], [⟨2, 200, "Size", "L"⟩]⟩)
        "attribute_value" = none ∧
      dictLookup (productToRepresentation
        ⟨"P", "p", "p1", "", true, "c", 0, [], [⟨2, 200, "Size", "L"⟩]⟩) "attribute" =
        some (.smap (buildAttributeMap [⟨2, 200, "Size", "L"⟩])) ∧
      ∀ k v, dictLookup (buildAttributeMap [⟨2, 200, "Size", "L"⟩]) k = some v →
        ∃ a ∈ [(⟨2, 200, "Size", "L"⟩ : AttributeValueRow)],
          a.attributeName = k ∧ a.value = v) :=
  ⟨serializers_flatten_attribute_maps.1 ⟨500, "sku1", 3, 1, [], [⟨1, 100, "Color", "Red"⟩]⟩,
   serializers_flatten_attribute_maps.2 ⟨"P", "p", "p1", "", true, "c", 0, [], [⟨2, 200, "Size", "L"⟩]⟩⟩

/-- A `Category` row as the category endpoint sees it. -/
structure CategoryRow where
  name : String
  slug : String
  isActive : Bool
deriving DecidableEq, Repr

/-- `CategorySerializer` (serializers.py lines 5-13): the `category` field
sourced from `name`, plus `slug`. -/
def categorySerialize (c : CategoryRow) : List (String × JVal) :=
  [("category", .s c.name), ("slug", .s c.slug)]

/-- `CategoryViewSet.list` (views.py lines 11-28): the queryset is
`Category.objects.all().is_active()` — `filter(is_active=True)` from
`IsActiveQueryset.is_active` (models.py lines 7-20) — serialized with
`many=True`. -/
def listCategories (cats : List CategoryRow) : List (List (String × JVal)) :=
  (cats.filter (fun c => c.isActive)).map categorySerialize

/-- C7: GET /categories returns exactly the active categories — every
returned document stems from a stored category with the active flag set and
is exactly the two-field document with `category` carrying the name and
`slug` the slug, every active stored category is returned, and categories
with the active flag unset contribute nothing. -/
theorem listCategories_spec (cats : List CategoryRow) :
    (∀ d ∈ listCategories cats, ∃ c ∈ cats, c.isActive = true ∧
      d = [("category", JVal.s c.name), ("slug", JVal.s c.slug)]) ∧
    (∀ c ∈ cats, c.isActive = true → categorySerialize c ∈ listCategories cats) ∧
    (∀ c ∈ cats, c.isActive = false →
      listCategories cats = listCategories (cats.filter (fun x => x.isActive))) := by
  refine ⟨?_, ?_, ?_⟩
  · intro d hd
    rcases List.mem_map.1 hd with ⟨c, hc, hcd⟩
    rcases List.mem_filter.1 hc with ⟨hmem, hact⟩
    exact ⟨c, hmem, by simpa using hact, hcd.symm⟩
  · intro c hc hact
    exact List.mem_map_of_mem categorySerialize
      (List.mem_filter.2 ⟨hc, by simp [hact]⟩)
  · intro c _ _
    unfold listCategories
    rw [List.filter_filter]
    simp

/-- Witness for C7: one active and one inactive category; the active one is
returned. -/
theorem listCategories_spec_witness :
    (⟨"Shoes", "shoes", true⟩ : CategoryRow) ∈
      [(⟨"Shoes", "shoes", true⟩ : CategoryRow), ⟨"Hidden", "hidden", false⟩] ∧
    (⟨"Shoes", "shoes", true⟩ : CategoryRow).isActive = true ∧
    categorySerialize ⟨"Shoes", "shoes", true⟩ ∈
      listCategories [⟨"Shoes", "shoes", true⟩, ⟨"Hidden", "hidden", false⟩] :=
  ⟨List.mem_cons_self _ _, rfl,
   (listCategories_spec [⟨"Shoes", "shoes", true⟩, ⟨"Hidden", "hidden", false⟩]).2.1
     ⟨"Shoes", "shoes", true⟩ (List.mem_cons_self _ _) rfl⟩

/-- `ProductViewSet.retrieve` (views.py lines 39-59): the queryset is
`Product.objects.all().is_active()` further filtered by `slug=slug`; the
`prefetch_related` calls only eager-load relations already carried by
`ProductData`; the result is serialized with `many=True`, an array. -/
def retrieveProduct (products : List ProductData) (slug : String) :
    List (List (String × JVal)) :=
  (((products.filter (fun p => p.isActive)).filter
    (fun p => p.slug == slug)).map productToRepresentation)

/-- C8: when no active product carries the requested slug — the product is
inactive or absent — GET /products/slug returns the empty array rather than
an error. -/
theorem retrieveProduct_empty_when_no_active_match
    (products : List ProductData) (slug : String)
    (h : ∀ p ∈ products, p.isActive = true → p.slug ≠ slug) :
    retrieveProduct products slug = [] := by
  unfold retrieveProduct
  rw [List.filter_filter]
  have hnil : products.filter (fun a => a.slug == slug && a.isActive) = [] := by
    rw [List.filter_eq_nil_iff]
    intro p hp
    simp only [Bool.and_eq_true, beq_iff_eq, not_and]
    intro he hact
    exact absurd he (h p hp hact)
  rw [hnil]
  rfl

/-- Witness for C8: the only product with slug "boots" is inactive, and an
unknown slug matches nothing; the endpoint yields the empty array. -/
theorem retrieveProduct_empty_witness :
    (∀ p ∈ [(⟨"Boots", "boots", "p1", "", false, "c", 0, [], []⟩ : ProductData),
            ⟨"Hat", "hat", "p2", "", true, "c", 0, [], []⟩],
      p.isActive = true → p.slug ≠ "boots") ∧
    retrieveProduct [⟨"Boots", "boots", "p1", "", false, "c", 0, [], []⟩,
      ⟨"Hat", "hat", "p2", "", true, "c", 0, [], []⟩] "boots" = [] :=
  ⟨by decide,
   retrieveProduct_empty_when_no_active_match
     [⟨"Boots", "boots", "p1", "", false, "c", 0, [], []⟩,
      ⟨"Hat", "hat", "p2", "", true, "c", 0, [], []⟩] "boots" (by decide)⟩

/-- `ProductAttributeValue` (models.py lines 191-208) defines no `clean` and
no overridden `save`; the only constraint on the product-level join is
`Meta.unique_together ('attribute_value', 'product')`, which rejects a
verbatim duplicate pair and nothing else — the attribute behind the value
is never examined. -/
def pavSave (joins : List (Nat × Nat)) (avId productId : Nat) :
    Except String (List (Nat × Nat)) :=
  if (avId, productId) ∈ joins then .error "unique_together violation"
  else .ok (joins ++ [(avId, productId)])

/-- C9: the product-level join accepts any new (attribute_value, product)
pair without examining the value's attribute, so a product may hold two
values of one attribute; the serialized product-level `attribute` dict then
keeps a single entry per attribute name (its keys are pairwise distinct)
whose value is the last matching attribute value encountered. -/
theorem pav_pairwise_only_and_attribute_last_wins :
    (∀ (joins : List (Nat × Nat)) (avId productId : Nat),
      (avId, productId) ∉ joins →
      pavSave joins avId productId = .ok (joins ++ [(avId, productId)])) ∧
    (∀ (avs : List AttributeValueRow) (nm : String),
      dictLookup (buildAttributeMap avs) nm =
        (avs.reverse.find? (fun a => decide (a.attributeName = nm))).map
          (fun a => a.value)) ∧
    (∀ avs : List AttributeValueRow,
      (buildAttributeMap avs).Pairwise (fun e1 e2 => e1.1 ≠ e2.1)) := by
  refine ⟨?_, ?_, ?_⟩
  · intro joins avId productId hnot
    simp [pavSave, hnot]
  · intro avs nm
    rw [buildAttributeMap, dictLookup_foldl_update]
  · intro avs
    have h : ∀ (xs : List AttributeValueRow) (acc : List (String × String)),
        acc.Pairwise (fun e1 e2 => e1.1 ≠ e2.1) →
        (xs.foldl (fun d a => dictUpdate d a.attributeName a.value) acc).Pairwise
          (fun e1 e2 => e1.1 ≠ e2.1) := by
      intro xs
      induction xs with
      | nil => intro acc hacc; simpa using hacc
      | cons x xs ih =>
        intro acc hacc
        rw [List.foldl_cons]
        exact ih _ (dictUpdate_keys_pairwise acc x.attributeName x.value hacc)
    exact h avs [] List.Pairwise.nil

/-- Witness for C9: value 2 of the same attribute 100 as stored value 1 is
accepted at the product level, and with values Red then Blue of attribute
name Color the serialized map holds Blue, the last one. -/
theorem pav_pairwise_only_witness :
    ((2, 7) ∉ [((1 : Nat), (7 : Nat))] ∧
      pavSave [(1, 7)] 2 7 = .ok [(1, 7), (2, 7)]) ∧
    dictLookup (buildAttributeMap
      [⟨1, 100, "Color", "Red"⟩, ⟨2, 100, "Color", "Blue"⟩]) "Color" =
      some "Blue" :=
  ⟨⟨by decide, pav_pairwise_only_and_attribute_last_wins.1 [(1, 7)] 2 7 (by decide)⟩,
   by rw [pav_pairwise_only_and_attribute_last_wins.2.1]; rfl⟩

/-- `ProductLineCategorySerializer` (serializers.py lines 90-98): `price`
and `product_image` only. -/
def productLineCategorySerialize (l : LineData) : List (String × JVal) :=
  [("price", .n l.price),
   ("product_image", .arr (l.images.map productImageSerialize))]

/-- `ProductCategorySerializer.to_representation` (serializers.py lines
111-120): serialize the declared fields, pop `product_line`, and when the
popped list is truthy (non-empty) hoist `item['price']` and
`item['product_image']` of its first element to top-level `price` and
`image`; an empty list adds nothing.  The popped list is the image of
`p.lines` under the line serializer, so its first element's entries are the
first line's price and serialized images. -/
def productCategoryToRepresentation (p : ProductData) : List (String × JVal) :=
  let data : List (String × JVal) :=
    [("name", .s p.name), ("slug", .s p.slug), ("pid", .s p.pid),
     ("created_at", .n p.createdAt),
     ("product_line", .arr (p.lines.map (fun l => .obj (productLineCategorySerialize l))))]
  let rest := dictPop data "product_line"
  match p.lines with
  | [] => rest
  | l :: _ =>
    dictUpdate (dictUpdate rest "price" (.n l.price)) "image"
      (.arr (l.images.map productImageSerialize))

/-- C10: in the product-in-category document the top-level `price` and
`image` come from the first element of the product's line list, and for a
product with no lines both keys are absent (no error, no default). -/
theorem productCategory_first_line_hoisted (p : ProductData) :
    (p.lines = [] →
      dictLookup (productCategoryToRepresentation p) "price" = none ∧
      dictLookup (productCategoryToRepresentation p) "image" = none) ∧
    (∀ (l : LineData) (rest : List LineData), p.lines = l :: rest →
      dictLookup (productCategoryToRepresentation p) "price" = some (.n l.price) ∧
      dictLookup (productCategoryToRepresentation p) "image" =
        some (.arr (l.images.map productImageSerialize))) := by
  constructor
  · intro hl
    obtain ⟨nm, sl, pi, de, ac, cs, cr, ln, av⟩ := p
    simp only at hl
    subst hl
    constructor <;> rfl
  · intro l rest hl
    obtain ⟨nm, sl, pi, de, ac, cs, cr, ln, av⟩ := p
    simp only at hl
    subst hl
    constructor
    · rw [productCategoryToRepresentation]
      rw [dictLookup_update_other _ _ _ _ (by decide), dictLookup_update_self]
    · rw [productCategoryToRepresentation]
      rw [dictLookup_update_self]

/-- Witness for C10: a product without lines omits `price` and `image`; a
product whose first line has price 700 and no images carries them. -/
theorem productCategory_first_line_hoisted_witness :
    (([] : List LineData) = [] ∧
      dictLookup (productCategoryToRepresentation
        ⟨"A", "a", "p1", "", true, "c", 0, [], []⟩) "price" = none ∧
      dictLookup (productCategoryToRepresentation
        ⟨"A", "a", "p1", "", true, "c", 0, [], []⟩) "image" = none) ∧
    (dictLookup (productCategoryToRepresentation
        ⟨"B", "b", "p2", "", true, "c", 0, [⟨700, "s", 1, 1, [], []⟩], []⟩)
        "price" = some (.n 700) ∧
      dictLookup (productCategoryToRepresentation
        ⟨"B", "b", "p2", "", true, "c", 0, [⟨700, "s", 1, 1, [], []⟩], []⟩)
        "image" = some (.arr [])) :=
  ⟨⟨rfl, (productCategory_first_line_hoisted
      ⟨"A", "a", "p1", "", true, "c", 0, [], []⟩).1 rfl⟩,
   (productCategory_first_line_hoisted
      ⟨"B", "b", "p2", "", true, "c", 0, [⟨700, "s", 1, 1, [], []⟩], []⟩).2
     ⟨700, "s", 1, 1, [], []⟩ [] rfl⟩
